import Mathlib

/-!
Shallow embedding of the batch tagging pipeline of the zotero-AI-tagger
plugin: the completion client (`chatCompletion`, `chatCompletionWithFallback`),
the tag-suggestion engine (`suggestTags`, `applyTags`) and the batch
scheduler (`Semaphore`, `processBatch`), together with proofs of the spec
claims about them.

External effects (HTTP responses, the model's output, the host tag store,
cancellation observations) are passed in explicitly as oracles/state; the
control flow of each embedded function mirrors the TypeScript source.
-/

namespace AITagger

/-! ## Completion client (`ai-service.ts`)

`chatCompletion` loops over `attempt = 0 .. maxRetries`, performing one
`fetch` per iteration.  The outcome of each fetch is supplied by an oracle
`Nat → HttpResp`.  A 429 response sleeps (retry-after if present, else
exponential backoff) and continues; a 5xx response with retry budget left
backs off and continues; any other non-2xx response *throws*, which lands in
the surrounding `catch` where the error is recorded and — if budget is
left — the same backoff delay is waited before the next attempt.  Network
errors and JSON-parse failures of a 2xx body take the same `catch` path.
-/

/-- Body of an HTTP response: either it parses as a completion response with
the given message content, or `response.json()` throws. -/
inductive RespBody where
  | valid (content : String)
  | invalid (msg : String)
deriving DecidableEq, Repr

/-- One fetch outcome: either the network layer threw, or an HTTP response
with a status code, an optional parsed `retry-after` header (seconds), a
status text and a body. -/
inductive HttpResp where
  | net (msg : String)
  | resp (status : Nat) (retryAfter : Option Nat) (statusText : String) (body : RespBody)

/-- The error carried by the promise rejection of `chatCompletion`. -/
inductive ErrKind where
  /-- Thrown as `new Error("HTTP <status>: <statusText> ...")` for a non-ok,
  non-retried-in-place status. -/
  | http (status : Nat) (statusText : String)
  /-- JSON parse failure of a 2xx body. -/
  | parse (msg : String)
  /-- The `fetch` call itself rejected. -/
  | net (msg : String)
  /-- Here `lastError` was still `null` after the loop (all attempts were 429). -/
  | exhausted
deriving DecidableEq, Repr

/-- Final observable behaviour of one `chatCompletion` call: the number of
fetches performed, the sleeps awaited (in order, milliseconds) and the
result. -/
inductive Outcome where
  | success (attempts : Nat) (delays : List Nat) (content : String)
  | failure (attempts : Nat) (delays : List Nat) (err : ErrKind)
deriving DecidableEq, Repr

/-- Backoff delay `Math.min(1000 * Math.pow(2, attempt), 30000)`. -/
def backoff (attempt : Nat) : Nat := min (1000 * 2 ^ attempt) 30000

/-- Wait for a 429: `retryAfter * 1000` when the header parsed, else the
exponential backoff. -/
def waitFor429 (retryAfter : Option Nat) (attempt : Nat) : Nat :=
  match retryAfter with
  | some s => s * 1000
  | none => backoff attempt

/-- The retry loop of `chatCompletion`.  `fuel` is the number of loop
iterations still allowed (`maxRetries + 1 - attempt`), so `attempt <
maxRetries` in the source is `0 < f` here.  Delays are accumulated in
reverse. -/
def chatCompletionGo (oracle : Nat → HttpResp) (attempt fuel : Nat)
    (lastErr : Option ErrKind) (delays : List Nat) : Outcome :=
  match fuel with
  | 0 => .failure attempt delays.reverse (lastErr.getD .exhausted)
  | f + 1 =>
    match oracle attempt with
    | .net msg =>
        chatCompletionGo oracle (attempt + 1) f (some (.net msg))
          (if 0 < f then backoff attempt :: delays else delays)
    | .resp status retryAfter statusText body =>
        if status = 429 then
          chatCompletionGo oracle (attempt + 1) f lastErr
            (waitFor429 retryAfter attempt :: delays)
        else if 500 ≤ status ∧ 0 < f then
          chatCompletionGo oracle (attempt + 1) f lastErr (backoff attempt :: delays)
        else if ¬ (200 ≤ status ∧ status < 300) then
          chatCompletionGo oracle (attempt + 1) f (some (.http status statusText))
            (if 0 < f then backoff attempt :: delays else delays)
        else
          match body with
          | .valid content => .success (attempt + 1) delays.reverse content
          | .invalid msg =>
              chatCompletionGo oracle (attempt + 1) f (some (.parse msg))
                (if 0 < f then backoff attempt :: delays else delays)

/-- Run of `chatCompletion(request, ...)` with the given `maxRetries` against a response
oracle. -/
def chatCompletionRun (maxRetries : Nat) (oracle : Nat → HttpResp) : Outcome :=
  chatCompletionGo oracle 0 (maxRetries + 1) none []

/-- The delays an outcome records. -/
def delaysOf : Outcome → List Nat
  | .success _ d _ => d
  | .failure _ d _ => d

/-- Whether `sub` occurs as a contiguous run inside `l`. -/
def listIncludes (l sub : List Char) : Bool :=
  match l with
  | [] => sub.isEmpty
  | _ :: t => sub.isPrefixOf l || listIncludes t sub

/-- JavaScript `String.prototype.includes`: `includes s sub` is true when `sub` occurs
as a contiguous substring of `s`. -/
def includes (s sub : String) : Bool := listIncludes s.toList sub.toList

/-- The test of `chatCompletionWithFallback`'s `catch`: the first attempt's
error message mentions `response_format`, `json_schema` or `not supported`. -/
def shouldFallback (msg : String) : Bool :=
  includes msg ("response_format") || includes msg ("json_schema") ||
    includes msg ("not supported")

/-- The instruction appended to the last user message on fallback. -/
def jsonInstruction : String :=
  "\n\nIMPORTANT: You must respond with ONLY a valid JSON object, no other text. The JSON must have this exact structure: \x7b \"tags\": [\"tag1\", \"tag2\"], \"reasoning\": \"explanation\" \x7d"

/-! ## Tag-suggestion engine (`tag-engine.ts`) -/

/-- The per-item result record produced by `suggestTags`. -/
structure TagResult where
  itemID : Nat
  title : String
  suggestedTags : List String
  appliedTags : List String
  reasoning : String
  error : Option String
deriving DecidableEq, Repr

/-- Spread of a set, `[...new Set(l)]`: JavaScript `Set` iteration is in insertion order, so
spreading a `Set` built from `l` keeps the first occurrence of each element,
in order.  `seen` is the set contents so far. -/
def dedupFirstAux (seen : List String) : List String → List String
  | [] => []
  | t :: rest =>
      if t ∈ seen then dedupFirstAux seen rest
      else t :: dedupFirstAux (t :: seen) rest

/-- Spread `[...new Set(l)]` with an initially empty set. -/
def dedupFirst (l : List String) : List String := dedupFirstAux [] l

/-- Lines 558–560 of the engine:
`[...new Set(parsed.tags)].filter((tag) => !currentTags.includes(tag))`. -/
def postFilter (parsedTags currentTags : List String) : List String :=
  (dedupFirst parsedTags).filter (fun tag => ¬ currentTags.contains tag)

/-- Outcome of the completion call plus JSON parse inside `suggestTags`:
either the response content parsed to `{tags, reasoning}`, or
`JSON.parse` threw, or the request itself failed. -/
inductive LlmOutcome where
  | ok (tags : List String) (reasoning : String)
  | parseError (msg : String)
  | requestError (msg : String)
deriving DecidableEq, Repr

/-- The part of `suggestTags` from the preference reads to the returned
record, for an already-resolved regular target item (the attachment/
non-regular early exits only produce error records and are not needed by
the claims).  Host-store reads (`libraryID` vocabulary, current tags) and
the completion call are passed in explicitly.  Note the returned
`suggestedTags` are only deduplicated and filtered against `currentTags`;
no filter against `availableTags` is applied anywhere on the response. -/
def suggestTagsCore (itemID : Nat) (title : String) (tagSource : String)
    (availableTags currentTags : List String) (llm : LlmOutcome) : TagResult :=
  if tagSource = "existing" ∧ availableTags = [] then
    { itemID := itemID, title := title, suggestedTags := [], appliedTags := []
      reasoning := "", error := some ("No available tags found in library") }
  else
    match llm with
    | .ok tags reasoning =>
        { itemID := itemID, title := title
          suggestedTags := postFilter tags currentTags
          appliedTags := [], reasoning := reasoning, error := none }
    | .parseError msg =>
        { itemID := itemID, title := title, suggestedTags := [], appliedTags := []
          reasoning := "", error := some msg }
    | .requestError msg =>
        { itemID := itemID, title := title, suggestedTags := [], appliedTags := []
          reasoning := "", error := some msg }

/-! ## Tag application (`applyTags`)

The host store is modelled as the in-memory tag list of each item together
with the persisted tag list of each item.  Per the spec's host-store
interface, `item.addTag(tag)` is a no-op when the tag is already present,
and `item.saveTx()` atomically persists the item's in-memory state. -/

/-- Host `item.addTag`: append unless already present. -/
def addTag (tags : List String) (t : String) : List String :=
  if t ∈ tags then tags else tags ++ [t]

/-- The host store: in-memory and persisted tag lists, keyed by item id. -/
structure Store where
  mem : Nat → List String
  saved : Nat → List String

/-- The commit step `applyTags(itemID, tags)`: look the item up, `addTag` each tag, and
`saveTx` only when `tags.length > 0`. -/
def applyTags (store : Store) (itemID : Nat) (tags : List String) : Store :=
  let newTags := tags.foldl addTag (store.mem itemID)
  let mem' := fun i => if i = itemID then newTags else store.mem i
  if 0 < tags.length then
    { mem := mem', saved := fun i => if i = itemID then newTags else store.saved i }
  else
    { mem := mem', saved := store.saved }

/-! ## Semaphore (`batch-processor.ts`, lines 96–120)

`acquire()` increments `active` when a slot is free, otherwise pushes the
waiter's resume callback on `queue`.  `release()` decrements `active`,
shifts the queue and, when a waiter was queued, runs its callback, which
increments `active` back and resumes the waiter.  The state below carries
two ghost histories — every waiter ever enqueued and every waiter admitted
from the queue, both in order — to state the FIFO property. -/

structure SemState where
  active : Int
  queue : List Nat
  enqueued : List Nat
  admitted : List Nat
deriving DecidableEq, Repr

/-- The events the semaphore reacts to: an `acquire()` call by waiter `w`,
or a `release()` call. -/
inductive SemEvent where
  | acquire (w : Nat)
  | release
deriving DecidableEq, Repr

/-- One semaphore operation. -/
def semStep (limit : Int) (s : SemState) : SemEvent → SemState
  | .acquire w =>
      if s.active < limit then { s with active := s.active + 1 }
      else { s with queue := s.queue ++ [w], enqueued := s.enqueued ++ [w] }
  | .release =>
      match s.queue with
      | [] => { s with active := s.active - 1 }
      | w :: rest =>
          { s with active := s.active - 1 + 1, queue := rest
                   admitted := s.admitted ++ [w] }

/-- Initial semaphore state: `active = 0`, empty queue. -/
def semInit : SemState := { active := 0, queue := [], enqueued := [], admitted := [] }

/-- The semaphore state after a sequence of operations. -/
def semRun (limit : Int) (events : List SemEvent) : SemState :=
  events.foldl (semStep limit) semInit

/-! ## Batch scheduler (`processBatch`, lines 136–210)

Each item's `processItem` run is driven by external observations collected
in an `ItemRun`: the cancellation flag as observed at the four
`if (cancelled) return` checkpoints (before `semaphore.acquire()`, after
it, after the pacing sleep, and after `suggestTags`), the record
`suggestTags` resolved with (it never rejects), the behaviour of the
optional `confirmFn`, and whether `applyTags` resolved or rejected.  The
pacing sleep between checkpoints 1 and 2 has no effect on any value and is
not modelled. -/

/-- Behaviour of the optional confirmation hook on this item:
absent, threw, or resolved with `null`/a tag list. -/
inductive ConfirmBehaviour where
  | noHook
  | throws (e : String)
  | returns (tags : Option (List String))
deriving DecidableEq, Repr

/-- External observations driving one `processItem` run. -/
structure ItemRun where
  cancelledAt0 : Bool
  cancelledAt1 : Bool
  cancelledAt2 : Bool
  cancelledAt3 : Bool
  suggestResult : TagResult
  confirm : ConfirmBehaviour
  applyThrows : Option String
deriving DecidableEq, Repr

/-- What one `processItem` run does, as observable by the scheduler:
whether the `finally` block ran (incrementing `current` and emitting a
snapshot), whether a record was pushed on `results`, and whether the
item's promise rejected. -/
inductive ItemOutcome where
  /-- Returned at checkpoint 0: no `finally`, no record. -/
  | skippedBeforeAcquire
  /-- Returned at checkpoint 1, 2 or 3: `finally` ran, no record. -/
  | skippedAfterAcquire
  /-- Reached the `results.push`: `finally` ran, record pushed. -/
  | completed (r : TagResult)
  /-- The `try` body threw (`confirmFn` or `applyTags` rejected):
  `finally` ran, no record, the exception propagates to `Promise.all`. -/
  | threw (e : String)
deriving DecidableEq, Repr

/-- The control flow of `processItem` (lines 161–201). -/
def processItem (run : ItemRun) : ItemOutcome :=
  if run.cancelledAt0 then .skippedBeforeAcquire
  else if run.cancelledAt1 then .skippedAfterAcquire
  else if run.cancelledAt2 then .skippedAfterAcquire
  else
    let result := run.suggestResult
    if run.cancelledAt3 then .skippedAfterAcquire
    else if result.error = none ∧ result.suggestedTags ≠ [] then
      match run.confirm with
      | .throws e => .threw e
      | .noHook =>
          match run.applyThrows with
          | some e => .threw e
          | none => .completed { result with appliedTags := result.suggestedTags }
      | .returns tagsToApply =>
          match tagsToApply with
          | some ts =>
              if ts ≠ [] then
                match run.applyThrows with
                | some e => .threw e
                | none => .completed { result with appliedTags := ts }
              else .completed result
          | none => .completed result
    else .completed result

/-- Whether this outcome ran the `finally` block (so incremented
`progress.current`). -/
def incrementsCurrent : ItemOutcome → Bool
  | .skippedBeforeAcquire => false
  | _ => true

/-- The record this outcome pushed on `progress.results`, if any. -/
def pushedRecord : ItemOutcome → Option TagResult
  | .completed r => some r
  | _ => none

/-- The exception this outcome propagated, if any. -/
def itemException : ItemOutcome → Option String
  | .threw e => some e
  | _ => none

/-- Whether this outcome is an item skipped because a cancellation
checkpoint observed the flag (at any of the four checkpoints). -/
def skippedByCancel : ItemOutcome → Bool
  | .skippedBeforeAcquire => true
  | .skippedAfterAcquire => true
  | _ => false

/-- The final `BatchProgress` value. -/
structure BatchProgress where
  total : Nat
  current : Nat
  results : List TagResult
  cancelled : Bool
deriving DecidableEq, Repr

/-- Settlement of the promise returned by `processBatch`. -/
inductive BatchOutcome where
  | resolved (b : BatchProgress)
  | rejected (e : String)
deriving DecidableEq, Repr

/-- Run of `processBatch` over a list of per-item observation records.
`Promise.all` rejects as soon as any `processItem` rejects and resolves
with the aggregate otherwise; `cancelledFlag` is the final value of the
`cancelled` flag.  The order of `results` abstracts completion order
(the claims below only count records). -/
def processBatch (runs : List ItemRun) (cancelledFlag : Bool) : BatchOutcome :=
  let outs := runs.map processItem
  match outs.filterMap itemException with
  | e :: _ => .rejected e
  | [] =>
      .resolved
        { total := runs.length
          current := (outs.filter incrementsCurrent).length
          results := outs.filterMap pushedRecord
          cancelled := cancelledFlag }

/-! ## Progress snapshots (`onProgress({ ...progress })`)

To speak about aliasing, the `results` array is modelled as a reference
into a heap of arrays; the other three fields of `BatchProgress` are
primitive values.  Object spread `{ ...progress }` copies each field —
for `results` that copies the *reference*, not the array. -/

/-- A `BatchProgress` object whose `results` field is a reference. -/
structure ProgressObj where
  total : Nat
  current : Nat
  resultsRef : Nat
  cancelled : Bool
deriving DecidableEq, Repr

/-- The array heap. -/
def ArrHeap := Nat → List TagResult

/-- Object spread `\x7b ...progress \x7d`: field-by-field shallow copy. -/
def spreadCopy (p : ProgressObj) : ProgressObj :=
  { total := p.total, current := p.current, resultsRef := p.resultsRef
    cancelled := p.cancelled }

/-- Mutation `snap.results.push(r)`: mutate, through a snapshot, the array its
`results` field refers to. -/
def pushThroughObj (h : ArrHeap) (snap : ProgressObj) (r : TagResult) : ArrHeap :=
  fun i => if i = snap.resultsRef then h i ++ [r] else h i

/-! ## Structured-output fallback (`chatCompletionWithFallback`)

The message objects of the request envelope live in a heap; the envelope
holds references.  On fallback the source copies the *array*
(`[...request.messages]`) but not the message objects, then mutates the
last message object's `content` in place when its role is `"user"`. -/

/-- A role-tagged chat message object. -/
structure MsgObj where
  role : String
  content : String
deriving DecidableEq, Repr

/-- Heap of message objects. -/
def MsgHeap := Nat → MsgObj

/-- The in-place mutation performed by the fallback branch (lines 183–188):
take the last message of the (copied) reference array and, when its role is
`"user"`, append `jsonInstruction` to its `content`. -/
def applyFallbackMutation (heap : MsgHeap) (msgRefs : List Nat) : MsgHeap :=
  match msgRefs.getLast? with
  | none => heap
  | some lastRef =>
      let lastMsg := heap lastRef
      if lastMsg.role = "user" then
        fun i =>
          if i = lastRef then { lastMsg with content := lastMsg.content ++ jsonInstruction }
          else heap i
      else heap

/-- The function `chatCompletionWithFallback` at the level of the message heap: the
first `chatCompletion` attempt's settlement and, when the fallback branch
re-sends, the second attempt's settlement are supplied as oracles (a
settlement is `.ok content` or `.error message`).  Returns the heap after
the call together with the call's settlement. -/
def chatCompletionWithFallback (heap : MsgHeap) (msgRefs : List Nat)
    (firstAttempt secondAttempt : Except String String) :
    MsgHeap × Except String String :=
  match firstAttempt with
  | .ok content => (heap, .ok content)
  | .error e =>
      if shouldFallback e then (applyFallbackMutation heap msgRefs, secondAttempt)
      else (heap, .error e)

/-! ## Derived observations and concrete inputs used by the claims -/

/-- The number of fetches an outcome performed. -/
def attemptsOf : Outcome → Nat
  | .success a _ _ => a
  | .failure a _ _ => a

/-- Whether a batch promise settled by resolving. -/
def isResolved : BatchOutcome → Bool
  | .resolved _ => true
  | .rejected _ => false

/-- Whether an item outcome is the pre-admission cancellation skip. -/
def skippedBefore : ItemOutcome → Bool
  | .skippedBeforeAcquire => true
  | _ => false

/-- Number of items of a batch skipped at some cancellation checkpoint. -/
def skippedCount (runs : List ItemRun) : Nat :=
  ((runs.map processItem).filter skippedByCancel).length

/-- Number of items of a batch skipped at the pre-admission checkpoint. -/
def beforeAcquireSkips (runs : List ItemRun) : Nat :=
  ((runs.map processItem).filter skippedBefore).length

/-- Whether the confirmation hook behaviour is a rejection. -/
def confirmThrows : ConfirmBehaviour → Bool
  | .throws _ => true
  | _ => false

/-- A response that is a 429 carrying no parseable retry-after header. -/
def is429NoRetryAfter : HttpResp → Bool
  | .resp status retryAfter _ _ => status == 429 && retryAfter.isNone
  | .net _ => false

/-- A response with a 5xx status. -/
def is5xx : HttpResp → Bool
  | .resp status _ _ _ => 500 ≤ status
  | .net _ => false

/-- Oracle answering 400 on the first attempt and 200 afterwards. -/
def oracle400Then200 : Nat → HttpResp := fun i =>
  if i = 0 then .resp 400 none ("Bad Request") (.invalid (""))
  else .resp 200 none ("OK") (.valid ("body"))

/-- Oracle answering 400 on every attempt. -/
def oracle400 : Nat → HttpResp := fun _ =>
  .resp 400 none ("Bad Request") (.invalid (""))

/-- Oracle answering 429 with no retry-after header on every attempt. -/
def oracle429 : Nat → HttpResp := fun _ =>
  .resp 429 none ("Too Many Requests") (.invalid (""))

/-- A non-error suggestion record with a single suggested tag. -/
def okRecord : TagResult :=
  { itemID := 1, title := ("t"), suggestedTags := [("a")], appliedTags := []
    reasoning := ("r"), error := none }

/-- An item run on which the confirmation hook rejects. -/
def runConfirmThrows : ItemRun :=
  { cancelledAt0 := false, cancelledAt1 := false, cancelledAt2 := false
    cancelledAt3 := false, suggestResult := okRecord
    confirm := .throws ("boom"), applyThrows := none }

/-- An item run that observes cancellation first at the checkpoint right
after the semaphore admission. -/
def runCancelAfterAcquire : ItemRun :=
  { cancelledAt0 := false, cancelledAt1 := true, cancelledAt2 := true
    cancelledAt3 := true, suggestResult := okRecord
    confirm := .noHook, applyThrows := none }

/-- An item run that completes the whole pipeline with no hook. -/
def runFull : ItemRun :=
  { cancelledAt0 := false, cancelledAt1 := false, cancelledAt2 := false
    cancelledAt3 := false, suggestResult := okRecord
    confirm := .noHook, applyThrows := none }

/-- The library vocabulary of the spec's running example. -/
def vocabEx : List String := [("physics"), ("biology"), ("chemistry")]

/-- A concrete store for witnesses: item 1 currently carries tag `physics`,
with the persisted state matching. -/
def storeEx : Store :=
  { mem := fun _ => [("physics")], saved := fun _ => [("physics")] }

/-- A concrete progress object whose `results` reference is array 0. -/
def progEx : ProgressObj := { total := 2, current := 1, resultsRef := 0, cancelled := false }

/-- An array heap whose every array is empty. -/
def arrHeapEx : ArrHeap := fun _ => []

/-- A message heap whose every message is a user message reading `hello`. -/
def msgHeapEx : MsgHeap := fun _ => { role := ("user"), content := ("hello") }

/-- A semaphore trace with limit-width bursts, queueing and releases. -/
def semEventsEx : List SemEvent :=
  [.acquire 0, .acquire 1, .acquire 2, .release, .acquire 3, .release, .release]

/-! ## Helper lemmas -/

theorem mem_dedupFirstAux (seen l : List String) (x : String) :
    x ∈ dedupFirstAux seen l ↔ x ∈ l ∧ x ∉ seen := by
  induction l generalizing seen with
  | nil => simp [dedupFirstAux]
  | cons t rest ih =>
    by_cases ht : t ∈ seen
    · rw [dedupFirstAux, if_pos ht, ih]
      simp only [List.mem_cons]
      constructor
      · rintro ⟨hx, hs⟩
        exact ⟨Or.inr hx, hs⟩
      · rintro ⟨hx | hx, hs⟩
        · exact absurd (hx ▸ ht) hs
        · exact ⟨hx, hs⟩
    · rw [dedupFirstAux, if_neg ht]
      simp only [List.mem_cons, ih, List.mem_cons]
      constructor
      · rintro (rfl | ⟨hx, hs⟩)
        · exact ⟨Or.inl rfl, ht⟩
        · exact ⟨Or.inr hx, fun hxs => hs (Or.inr hxs)⟩
      · rintro ⟨hx | hx, hs⟩
        · exact Or.inl hx
        · by_cases hxt : x = t
          · exact Or.inl hxt
          · exact Or.inr ⟨hx, fun hc => hc.elim hxt hs⟩

theorem nodup_dedupFirstAux (seen l : List String) : (dedupFirstAux seen l).Nodup := by
  induction l generalizing seen with
  | nil => simp [dedupFirstAux]
  | cons t rest ih =>
    by_cases ht : t ∈ seen
    · rw [dedupFirstAux, if_pos ht]
      exact ih seen
    · rw [dedupFirstAux, if_neg ht, List.nodup_cons]
      refine ⟨?_, ih _⟩
      rw [mem_dedupFirstAux]
      rintro ⟨-, hmem⟩
      exact hmem (List.mem_cons_self t seen)

theorem sublist_dedupFirstAux (seen l : List String) :
    (dedupFirstAux seen l).Sublist l := by
  induction l generalizing seen with
  | nil => simp [dedupFirstAux]
  | cons t rest ih =>
    by_cases ht : t ∈ seen
    · rw [dedupFirstAux, if_pos ht]
      exact (ih seen).trans (List.sublist_cons_self t rest)
    · rw [dedupFirstAux, if_neg ht]
      exact List.Sublist.cons₂ t (ih _)

theorem dedupFirstAux_eq_self (seen l : List String) (hnd : l.Nodup)
    (hdisj : ∀ x ∈ l, x ∉ seen) : dedupFirstAux seen l = l := by
  induction l generalizing seen with
  | nil => rfl
  | cons t rest ih =>
    rw [dedupFirstAux, if_neg (hdisj t (List.mem_cons_self t rest))]
    congr 1
    refine ih _ hnd.of_cons ?_
    intro x hx
    simp only [List.mem_cons]
    rintro (rfl | hseen)
    · exact (List.nodup_cons.mp hnd).1 hx
    · exact hdisj x (List.mem_cons_of_mem t hx) hseen

theorem mem_postFilter (S C : List String) (x : String) :
    x ∈ postFilter S C ↔ x ∈ S ∧ x ∉ C := by
  unfold postFilter dedupFirst
  rw [List.mem_filter, mem_dedupFirstAux]
  simp [List.elem_iff, List.contains]

theorem nodup_postFilter (S C : List String) : (postFilter S C).Nodup :=
  (nodup_dedupFirstAux [] S).filter _

theorem sublist_postFilter (S C : List String) : (postFilter S C).Sublist S :=
  (List.filter_sublist _).trans (sublist_dedupFirstAux [] S)

theorem postFilter_idem (S C : List String) :
    postFilter (postFilter S C) C = postFilter S C := by
  unfold postFilter
  have h1 : dedupFirst ((dedupFirst S).filter (fun tag => ¬ C.contains tag)) =
      (dedupFirst S).filter (fun tag => ¬ C.contains tag) :=
    dedupFirstAux_eq_self [] _ ((nodup_dedupFirstAux [] S).filter _) (by simp)
  rw [show dedupFirst ((dedupFirst S).filter (fun tag => ¬ C.contains tag)) =
      (dedupFirst S).filter (fun tag => ¬ C.contains tag) from h1]
  rw [List.filter_filter]
  exact List.filter_congr (by intro a ha; simp)

theorem mem_foldl_addTag_of_mem_init {x : String} {init : List String}
    (l : List String) (hx : x ∈ init) : x ∈ l.foldl addTag init := by
  induction l generalizing init with
  | nil => exact hx
  | cons t rest ih =>
    refine ih ?_
    unfold addTag
    split
    · exact hx
    · exact List.mem_append_left _ hx

theorem mem_foldl_addTag_of_mem {x : String} {init : List String}
    {l : List String} (hx : x ∈ l) : x ∈ l.foldl addTag init := by
  induction l generalizing init with
  | nil => cases hx
  | cons t rest ih =>
    rcases List.mem_cons.mp hx with rfl | hx'
    · refine mem_foldl_addTag_of_mem_init rest ?_
      unfold addTag
      split
      · assumption
      · exact List.mem_append_right _ (List.mem_cons_self x [])
    · exact ih hx'

theorem foldl_addTag_eq_of_subset {init : List String} {l : List String}
    (h : ∀ t ∈ l, t ∈ init) : l.foldl addTag init = init := by
  induction l with
  | nil => rfl
  | cons t rest ih =>
    have ht : t ∈ init := h t (List.mem_cons_self t rest)
    rw [List.foldl_cons, addTag, if_pos ht]
    exact ih fun x hx => h x (List.mem_cons_of_mem t hx)

theorem Store.ext' {a b : Store} (h1 : a.mem = b.mem) (h2 : a.saved = b.saved) :
    a = b := by
  cases a
  cases b
  cases h1
  cases h2
  rfl

theorem applyTags_mem (store : Store) (itemID : Nat) (tags : List String) :
    (applyTags store itemID tags).mem =
      fun i => if i = itemID then tags.foldl addTag (store.mem itemID)
               else store.mem i := by
  unfold applyTags
  split <;> rfl

theorem applyTags_saved_pos (store : Store) (itemID : Nat) (tags : List String)
    (h : 0 < tags.length) :
    (applyTags store itemID tags).saved =
      fun i => if i = itemID then tags.foldl addTag (store.mem itemID)
               else store.saved i := by
  unfold applyTags
  rw [if_pos h]

theorem applyTags_saved_zero (store : Store) (itemID : Nat) (tags : List String)
    (h : ¬ 0 < tags.length) :
    (applyTags store itemID tags).saved = store.saved := by
  unfold applyTags
  rw [if_neg h]

/-! ## Claim theorems -/

/-- C7: for every suggested-tag list `S` and current-tag list `C`, the
post-filter of `suggestTags` returns the elements of `S` with duplicates
removed keeping the first occurrence and order preserved (stated as: the
result is duplicate-free, is a sublist of `S`, and holds exactly the
elements of `S` not in `C`), the filter is idempotent on the same
`(S, C)` pair, and on `S = [physics, biology]`, `C = [physics]` it
returns `[biology]`. -/
theorem postFilter_dedups_filters_idempotent (S C : List String) :
    (postFilter S C).Sublist S ∧
    (postFilter S C).Nodup ∧
    (∀ x, x ∈ postFilter S C ↔ x ∈ S ∧ x ∉ C) ∧
    postFilter (postFilter S C) C = postFilter S C ∧
    postFilter [("physics"), ("biology")] [("physics")] = [("biology")] :=
  ⟨sublist_postFilter S C, nodup_postFilter S C, mem_postFilter S C,
    postFilter_idem S C, by decide⟩

/-- C7 witness: the theorem applied at the spec's running example. -/
theorem postFilter_dedups_filters_idempotent_witness :
    postFilter [("physics"), ("biology")] [("physics")] = [("biology")] ∧
    postFilter (postFilter [("physics"), ("biology")] [("physics")]) [("physics")] =
      postFilter [("physics"), ("biology")] [("physics")] :=
  ⟨(postFilter_dedups_filters_idempotent [] []).2.2.2.2,
    (postFilter_dedups_filters_idempotent [("physics"), ("biology")]
      [("physics")]).2.2.2.1⟩

/-- C8: `applyTags(itemID, tags)` adds each tag of the list to the item's
in-memory tag list and persists (saves) the item exactly when the list is
non-empty; an empty list leaves the whole store untouched; and applying
the same list to the same item twice leaves the store in the same state as
applying it once, because adding an already-present tag is a no-op. -/
theorem applyTags_empty_noop_and_idempotent (store : Store) (itemID : Nat)
    (tags : List String) :
    applyTags store itemID [] = store ∧
    (∀ t ∈ tags, t ∈ (applyTags store itemID tags).mem itemID) ∧
    (tags ≠ [] →
      (applyTags store itemID tags).saved itemID =
        (applyTags store itemID tags).mem itemID) ∧
    applyTags (applyTags store itemID tags) itemID tags =
      applyTags store itemID tags := by
  have hmemAt : (applyTags store itemID tags).mem itemID =
      tags.foldl addTag (store.mem itemID) := by
    rw [applyTags_mem]
    exact if_pos rfl
  have hfix : tags.foldl addTag (tags.foldl addTag (store.mem itemID)) =
      tags.foldl addTag (store.mem itemID) :=
    foldl_addTag_eq_of_subset fun t ht => mem_foldl_addTag_of_mem ht
  refine ⟨?_, ?_, ?_, ?_⟩
  · refine Store.ext' ?_ (applyTags_saved_zero store itemID [] (by simp))
    rw [applyTags_mem]
    funext i
    by_cases hi : i = itemID
    · rw [if_pos hi, List.foldl_nil, hi]
    · rw [if_neg hi]
  · intro t ht
    rw [hmemAt]
    exact mem_foldl_addTag_of_mem ht
  · intro hne
    have hpos : 0 < tags.length := List.length_pos.mpr hne
    rw [applyTags_saved_pos store itemID tags hpos, applyTags_mem]
    simp
  · refine Store.ext' ?_ ?_
    · rw [applyTags_mem (applyTags store itemID tags), applyTags_mem store]
      funext i
      by_cases hi : i = itemID
      · rw [if_pos hi, if_pos hi]
        simp [hfix]
      · rw [if_neg hi, if_neg hi]
        simp [hi]
    · by_cases hpos : 0 < tags.length
      · rw [applyTags_saved_pos (applyTags store itemID tags) itemID tags hpos,
          applyTags_saved_pos store itemID tags hpos]
        funext i
        by_cases hi : i = itemID
        · rw [if_pos hi, if_pos hi, hmemAt, hfix]
        · rw [if_neg hi, if_neg hi]
          simp [hi]
      · rw [applyTags_saved_zero (applyTags store itemID tags) itemID tags hpos,
          applyTags_saved_zero store itemID tags hpos]

theorem semStep_bound_fifo (limit : Int) (s : SemState) (e : SemEvent)
    (h1 : s.active ≤ limit) (h2 : s.enqueued = s.admitted ++ s.queue) :
    (semStep limit s e).active ≤ limit ∧
    (semStep limit s e).enqueued = (semStep limit s e).admitted ++ (semStep limit s e).queue := by
  cases e with
  | acquire w =>
    by_cases hlt : s.active < limit
    · rw [semStep, if_pos hlt]
      refine ⟨?_, h2⟩
      show s.active + 1 ≤ limit
      omega
    · rw [semStep, if_neg hlt]
      refine ⟨h1, ?_⟩
      simp only [h2, List.append_assoc]
  | release =>
    cases hq : s.queue with
    | nil =>
      simp only [semStep, hq]
      refine ⟨by omega, ?_⟩
      rw [h2, hq]
    | cons w rest =>
      simp only [semStep, hq]
      refine ⟨by omega, ?_⟩
      rw [h2, hq, List.append_assoc]
      rfl

theorem semFoldl_bound_fifo (limit : Int) (events : List SemEvent) (s : SemState)
    (h1 : s.active ≤ limit) (h2 : s.enqueued = s.admitted ++ s.queue) :
    (events.foldl (semStep limit) s).active ≤ limit ∧
    (events.foldl (semStep limit) s).enqueued =
      (events.foldl (semStep limit) s).admitted ++ (events.foldl (semStep limit) s).queue := by
  induction events generalizing s with
  | nil => exact ⟨h1, h2⟩
  | cons e t ih =>
    obtain ⟨g1, g2⟩ := semStep_bound_fifo limit s e h1 h2
    exact ih _ g1 g2

/-- C5: for every configured concurrency limit `L ≥ 1` and every sequence
of semaphore operations, the semaphore's `active` count — the number of
admitted, unreleased items, i.e. the simultaneously in-flight suggestion
calls — never exceeds `L`, and waiters queued on the admission gate are
admitted in FIFO order of their `acquire` calls: the enqueue history always
equals the admission history followed by the still-waiting queue. -/
theorem semaphore_bounded_and_fifo (limit : Int) (hL : 1 ≤ limit)
    (events : List SemEvent) :
    (semRun limit events).active ≤ limit ∧
    (semRun limit events).enqueued =
      (semRun limit events).admitted ++ (semRun limit events).queue :=
  semFoldl_bound_fifo limit events semInit (by show (0 : Int) ≤ limit; omega) rfl

/-- C5 witness: the theorem applied at limit 2 and a concrete trace that
overfills the gate and releases slots. -/
theorem semaphore_bounded_and_fifo_witness :
    (1 : Int) ≤ 2 ∧
    (semRun 2 semEventsEx).active ≤ 2 ∧
    (semRun 2 semEventsEx).enqueued =
      (semRun 2 semEventsEx).admitted ++ (semRun 2 semEventsEx).queue :=
  ⟨by omega, semaphore_bounded_and_fifo 2 (by omega) semEventsEx⟩

theorem backoff_mono {a b : Nat} (h : a ≤ b) : backoff a ≤ backoff b := by
  unfold backoff
  exact min_le_min (Nat.mul_le_mul le_rfl (Nat.pow_le_pow_right (by omega) h)) le_rfl

theorem range_map_backoff_succ (a L : Nat) :
    (List.range (L + 1)).map (fun i => backoff (a + i)) =
      backoff a :: (List.range L).map (fun i => backoff (a + 1 + i)) := by
  rw [List.range_succ_eq_map, List.map_cons, List.map_map]
  congr 1
  refine List.map_congr_left ?_
  intro i hi
  simp only [Function.comp_apply]
  congr 1
  omega

theorem chatCompletionGo_const400 (f : Nat) :
    ∀ (a : Nat) (le : Option ErrKind) (ds : List Nat),
    chatCompletionGo oracle400 a (f + 1) le ds =
      .failure (a + f + 1)
        (ds.reverse ++ (List.range f).map (fun i => backoff (a + i)))
        (.http 400 ("Bad Request")) := by
  induction f with
  | zero =>
    intro a le ds
    simp [chatCompletionGo, oracle400]
  | succ f ih =>
    intro a le ds
    have step : chatCompletionGo oracle400 a (f + 1 + 1) le ds =
        chatCompletionGo oracle400 (a + 1) (f + 1)
          (some (.http 400 ("Bad Request"))) (backoff a :: ds) := by
      conv_lhs => rw [chatCompletionGo]
      simp [oracle400]
    rw [step, ih, List.reverse_cons, range_map_backoff_succ, List.append_assoc,
      List.singleton_append]
    have harith : a + 1 + f + 1 = a + (f + 1) + 1 := by omega
    rw [harith]

/-- C2 counterexample: with the first attempt answering HTTP 400 and the
second answering 200, `chatCompletion` with `maxRetries = 3` performs a
*second* fetch after a 1000 ms backoff and succeeds — so a 4xx status
other than 429 is not raised immediately after the response, a further
request attempt is performed, and a backoff delay is waited, contradicting
the claim that such a call raises with no retry, no backoff delay and no
budget consumption. -/
theorem http400_not_terminal_counterexample :
    chatCompletionRun 3 oracle400Then200 = .success 2 [1000] ("body") ∧
    attemptsOf (chatCompletionRun 3 oracle400Then200) = 2 ∧
    delaysOf (chatCompletionRun 3 oracle400Then200) = [1000] := by
  refine ⟨?_, ?_, ?_⟩ <;> decide

/-- C2 (amended): a 4xx response other than 429 is thrown as an error
inside the `try` block, lands in the same `catch` as network failures, and
is retried with exponential backoff like any other caught error; it is
surfaced only once the retry budget is exhausted.  Concretely, with every
attempt answering HTTP 400 and retry budget `m`, the call performs `m + 1`
fetches, waits the backoff delays `min(1000·2^i, 30000)` for `i < m`, and
then raises the HTTP 400 error. -/
theorem http400_retried_until_budget_exhausted (m : Nat) :
    chatCompletionRun m oracle400 =
      .failure (m + 1) ((List.range m).map backoff) (.http 400 ("Bad Request")) := by
  unfold chatCompletionRun
  rw [chatCompletionGo_const400 m 0 none []]
  simp

theorem chatCompletionGo_delays_backoff (oracle : Nat → HttpResp)
    (h : ∀ i, is429NoRetryAfter (oracle i) || is5xx (oracle i)) (f : Nat) :
    ∀ (a : Nat) (le : Option ErrKind) (ds : List Nat),
    ∃ L, delaysOf (chatCompletionGo oracle a f le ds) =
      ds.reverse ++ (List.range L).map (fun i => backoff (a + i)) := by
  induction f with
  | zero =>
    intro a le ds
    exact ⟨0, by simp [chatCompletionGo, delaysOf]⟩
  | succ f ih =>
    intro a le ds
    have ho := h a
    cases hoa : oracle a with
    | net msg =>
      rw [hoa] at ho
      simp [is429NoRetryAfter, is5xx] at ho
    | resp status ra st body =>
      rw [hoa] at ho
      by_cases h429 : status = 429
      · subst h429
        have hra : ra = none := by
          cases ra with
          | none => rfl
          | some s => simp [is429NoRetryAfter, is5xx] at ho
        subst hra
        have step : chatCompletionGo oracle a (f + 1) le ds =
            chatCompletionGo oracle (a + 1) f le (backoff a :: ds) := by
          conv_lhs => rw [chatCompletionGo]
          rw [hoa]
          simp [waitFor429]
        obtain ⟨L, hL⟩ := ih (a + 1) le (backoff a :: ds)
        refine ⟨L + 1, ?_⟩
        rw [step, hL, List.reverse_cons, range_map_backoff_succ, List.append_assoc,
          List.singleton_append]
      · have h5 : 500 ≤ status := by
          have : (status == 429) = false := by simp [h429]
          simpa [is429NoRetryAfter, is5xx, this] using ho
        by_cases hf : 0 < f
        · have step : chatCompletionGo oracle a (f + 1) le ds =
              chatCompletionGo oracle (a + 1) f le (backoff a :: ds) := by
            conv_lhs => rw [chatCompletionGo]
            rw [hoa]
            simp [h429, h5, hf]
          obtain ⟨L, hL⟩ := ih (a + 1) le (backoff a :: ds)
          refine ⟨L + 1, ?_⟩
          rw [step, hL, List.reverse_cons, range_map_backoff_succ, List.append_assoc,
            List.singleton_append]
        · have hf0 : f = 0 := by omega
          subst hf0
          refine ⟨0, ?_⟩
          have h200 : ¬ (200 ≤ status ∧ status < 300) := by omega
          conv_lhs => rw [chatCompletionGo]
          rw [hoa]
          simp [h429, h200, chatCompletionGo, delaysOf]

/-- C9: in a run of `chatCompletion` in which every response is a 429
without a retry-after header or a 5xx, the delay waited before the `n`-th
retry (`n ≥ 1`) equals `min(1000·2^(n-1), 30000)` milliseconds, and these
delays are non-decreasing in `n`. -/
theorem backoff_delay_formula_and_monotone (m : Nat) (oracle : Nat → HttpResp)
    (h : ∀ i, is429NoRetryAfter (oracle i) || is5xx (oracle i))
    (n k : Nat) (hn : 1 ≤ n) (hnk : n ≤ k)
    (hk : k ≤ (delaysOf (chatCompletionRun m oracle)).length) :
    (delaysOf (chatCompletionRun m oracle)).getD (n - 1) 0 =
      min (1000 * 2 ^ (n - 1)) 30000 ∧
    (delaysOf (chatCompletionRun m oracle)).getD (n - 1) 0 ≤
      (delaysOf (chatCompletionRun m oracle)).getD (k - 1) 0 := by
  obtain ⟨L, hL⟩ := chatCompletionGo_delays_backoff oracle h (m + 1) 0 none []
  have hD : delaysOf (chatCompletionRun m oracle) = (List.range L).map backoff := by
    unfold chatCompletionRun
    rw [hL]
    simp
  rw [hD] at hk ⊢
  have hget : ∀ j, j < L → ((List.range L).map backoff).getD j 0 = backoff j := by
    intro j hj
    rw [List.getD_eq_getElem?_getD, List.getElem?_map, List.getElem?_range hj]
    rfl
  rw [List.length_map, List.length_range] at hk
  have hn1 : n - 1 < L := by omega
  have hk1 : k - 1 < L := by omega
  rw [hget _ hn1, hget _ hk1]
  exact ⟨rfl, backoff_mono (by omega)⟩

/-- C9 witness: the theorem applied to a run with retry budget 1 in which
both attempts answer 429 with no retry-after header, at `n = 1`, `k = 2`:
both delays exist, the first is `min(1000·2^0, 30000) = 1000`, and it is
at most the second. -/
theorem backoff_delay_formula_and_monotone_witness :
    (delaysOf (chatCompletionRun 1 oracle429)).getD 0 0 =
      min (1000 * 2 ^ 0) 30000 ∧
    (delaysOf (chatCompletionRun 1 oracle429)).getD 0 0 ≤
      (delaysOf (chatCompletionRun 1 oracle429)).getD 1 0 :=
  backoff_delay_formula_and_monotone 1 oracle429 (fun _ => rfl) 1 2
    (by omega) (by omega) (by decide)

/-- C3 counterexample: in existing-only mode with the non-empty vocabulary
`[physics, biology, chemistry]`, a model response whose parsed tags are
`[banana]` — possible on the prompt-based fallback path, where no schema
enum constrains the response — yields a suggestion record with *no* error
whose suggested tags contain `banana`, a tag not in the vocabulary: the
engine applies no vocabulary filter to the parsed response. -/
theorem existing_mode_out_of_vocab_counterexample :
    (suggestTagsCore 1 ("t") ("existing") vocabEx []
      (.ok [("banana")] ("r"))).error = none ∧
    ("banana") ∈ (suggestTagsCore 1 ("t") ("existing") vocabEx []
      (.ok [("banana")] ("r"))).suggestedTags ∧
    ("banana") ∉ vocabEx := by
  refine ⟨?_, ?_, ?_⟩ <;> decide

/-- C3 (amended): the engine never filters the parsed tags against the
vocabulary — its post-filter only deduplicates and removes tags already on
the item, so every suggested tag comes from the parsed response; suggested
tags are therefore all vocabulary members exactly when the parsed tags
already are (i.e. when the provider honoured the schema enum constraint),
and on the fallback path nothing enforces this. -/
theorem existing_mode_vocab_membership_amended (itemID : Nat)
    (title tagSource reasoning : String)
    (availableTags currentTags tags : List String)
    (h : ∀ t ∈ tags, t ∈ availableTags) :
    (∀ t ∈ (suggestTagsCore itemID title tagSource availableTags currentTags
        (.ok tags reasoning)).suggestedTags, t ∈ availableTags) ∧
    (∀ t ∈ (suggestTagsCore itemID title tagSource availableTags currentTags
        (.ok tags reasoning)).suggestedTags, t ∈ tags) := by
  by_cases hcase : tagSource = ("existing") ∧ availableTags = []
  · constructor <;> intro t ht <;>
      simp only [suggestTagsCore, if_pos hcase] at ht <;> cases ht
  · constructor <;> intro t ht <;>
      simp only [suggestTagsCore, if_neg hcase] at ht
    · exact h t ((mem_postFilter tags currentTags t).mp ht).1
    · exact ((mem_postFilter tags currentTags t).mp ht).1

/-- C3 witness: the amended theorem applied at the spec's running example,
where the parsed tags `[physics, biology]` are inside the vocabulary, and
`biology` survives the post-filter. -/
theorem existing_mode_vocab_membership_amended_witness :
    ("biology") ∈ vocabEx :=
  (existing_mode_vocab_membership_amended 1 ("t") ("existing") ("r") vocabEx
      [("physics")] [("physics"), ("biology")] (by decide)).1
    ("biology") (by decide)

theorem itemException_eq_none (run : ItemRun)
    (h1 : confirmThrows run.confirm = false) (h2 : run.applyThrows = none) :
    itemException (processItem run) = none := by
  unfold processItem
  split_ifs with hc0 hc1 hc2 hc3
  · rfl
  · rfl
  · rfl
  · rfl
  · cases hcf : run.confirm with
    | throws e => simp [hcf, confirmThrows] at h1
    | noHook =>
      simp only [hcf, h2]
      split <;> rfl
    | returns ts =>
      cases ts with
      | none =>
        simp only [hcf]
        split <;> rfl
      | some l =>
        simp only [hcf, h2]
        split
        · split <;> rfl
        · rfl

/-- C1 counterexample: a single-item batch on which the suggestion engine
returns a clean record but the confirmation hook throws: `processBatch`
rejects with that exception instead of resolving, so a per-item
confirmation-hook failure aborts the whole batch promise, contrary to the
claim that the batch promise rejects only for internal scheduler faults. -/
theorem batch_rejects_on_hook_exception_counterexample :
    processBatch [runConfirmThrows] false = .rejected ("boom") ∧
    isResolved (processBatch [runConfirmThrows] false) = false := by
  refine ⟨?_, ?_⟩ <;> decide

/-- C1 (amended): the batch promise resolves whenever no item's
confirmation hook or `applyTags` call rejects; failures inside
`suggestTags` never reject the batch — an item whose suggestion record
carries an error never throws, and when not skipped by cancellation its
record, error message retained, is pushed on the results. -/
theorem batch_resolves_without_hook_or_apply_exceptions (runs : List ItemRun)
    (c : Bool)
    (h : ∀ run ∈ runs, confirmThrows run.confirm = false ∧ run.applyThrows = none) :
    (∃ b, processBatch runs c = .resolved b) ∧
    (∀ run : ItemRun, run.suggestResult.error ≠ none →
      itemException (processItem run) = none) ∧
    (∀ run : ItemRun, run.suggestResult.error ≠ none →
      run.cancelledAt0 = false → run.cancelledAt1 = false →
      run.cancelledAt2 = false → run.cancelledAt3 = false →
      pushedRecord (processItem run) = some run.suggestResult) := by
  refine ⟨?_, ?_, ?_⟩
  · have hnil : (runs.map processItem).filterMap itemException = [] := by
      rw [List.filterMap_eq_nil_iff]
      intro o ho
      obtain ⟨run, hrun, rfl⟩ := List.mem_map.mp ho
      exact itemException_eq_none run (h run hrun).1 (h run hrun).2
    have hres : processBatch runs c = .resolved
        { total := runs.length
          current := ((runs.map processItem).filter incrementsCurrent).length
          results := (runs.map processItem).filterMap pushedRecord
          cancelled := c } := by
      simp only [processBatch]
      rw [hnil]
    exact ⟨_, hres⟩
  · intro run herr
    have hg : ¬ (run.suggestResult.error = none ∧
        run.suggestResult.suggestedTags ≠ []) := fun hg => herr hg.1
    unfold processItem
    split_ifs with hc0 hc1 hc2 hc3
    · rfl
    · rfl
    · rfl
    · rfl
    · rw [if_neg hg]
      rfl
  · intro run herr hc0 hc1 hc2 hc3
    have hg : ¬ (run.suggestResult.error = none ∧
        run.suggestResult.suggestedTags ≠ []) := fun hga => herr hga.1
    unfold processItem
    simp [hc0, hc1, hc2, hc3, hg, pushedRecord]

/-- C1 witness: the amended theorem applied to a one-item batch whose hook
is absent and whose apply step succeeds: the batch resolves. -/
theorem batch_resolves_without_hook_or_apply_exceptions_witness :
    isResolved (processBatch [runFull] false) = true := by
  obtain ⟨b, hb⟩ :=
    (batch_resolves_without_hook_or_apply_exceptions [runFull] false (by decide)).1
  rw [hb]
  rfl

theorem itemOutcome_counts (outs : List ItemOutcome)
    (hn : ∀ o ∈ outs, itemException o = none) :
    (outs.filterMap pushedRecord).length + (outs.filter skippedByCancel).length =
      outs.length ∧
    (outs.filter incrementsCurrent).length + (outs.filter skippedBefore).length =
      outs.length := by
  induction outs with
  | nil => simp
  | cons o t ih =>
    obtain ⟨ih1, ih2⟩ := ih fun x hx => hn x (List.mem_cons_of_mem o hx)
    cases o with
    | skippedBeforeAcquire =>
      simp only [List.filterMap_cons, List.filter_cons, pushedRecord,
        skippedByCancel, incrementsCurrent, skippedBefore, List.length_cons]
      simp only [Bool.false_eq_true, if_true, if_false, List.length_cons]
      omega
    | skippedAfterAcquire =>
      simp only [List.filterMap_cons, List.filter_cons, pushedRecord,
        skippedByCancel, incrementsCurrent, skippedBefore, List.length_cons]
      simp only [Bool.false_eq_true, if_true, if_false, List.length_cons]
      omega
    | completed r =>
      simp only [List.filterMap_cons, List.filter_cons, pushedRecord,
        skippedByCancel, incrementsCurrent, skippedBefore, List.length_cons]
      simp only [Bool.false_eq_true, if_true, if_false, List.length_cons]
      omega
    | threw e =>
      exact absurd (hn _ (List.mem_cons_self _ t)) (by simp [itemException])

/-- C4 counterexample: a one-item batch whose run first observes
cancellation at the checkpoint *after* semaphore admission: the batch
resolves with `current = 1` and an empty results list, yet the item
counts as skipped by cancellation — so `current + skipped = 2 ≠ 1 =
total`, and the item finished (ran the `finally` block, incrementing the
counter and emitting a snapshot) without appending its result record. -/
theorem batch_bookkeeping_counterexample :
    processBatch [runCancelAfterAcquire] true =
      .resolved { total := 1, current := 1, results := [], cancelled := true } ∧
    skippedCount [runCancelAfterAcquire] = 1 ∧
    incrementsCurrent (processItem runCancelAfterAcquire) = true ∧
    pushedRecord (processItem runCancelAfterAcquire) = none ∧
    ¬ (1 + skippedCount [runCancelAfterAcquire] = 1) := by
  refine ⟨?_, ?_, ?_, ?_, ?_⟩ <;> decide

/-- C4 (amended): when the batch promise resolves, the number of result
records equals the number of items that were not skipped at any
cancellation checkpoint, and `current` plus the number of items skipped
at the *pre-admission* checkpoint equals the total item count — items
cancelled after admission increment `current` (and emit a snapshot in the
`finally` block) without appending a result record, so `current +
skipped = total` over all skips fails in general. -/
theorem batch_bookkeeping_amended (runs : List ItemRun) (c : Bool)
    (b : BatchProgress) (h : processBatch runs c = .resolved b) :
    b.total = runs.length ∧
    b.results.length + skippedCount runs = runs.length ∧
    b.current + beforeAcquireSkips runs = runs.length := by
  simp only [processBatch] at h
  cases hfm : (runs.map processItem).filterMap itemException with
  | cons e t =>
    rw [hfm] at h
    exact absurd h (by simp)
  | nil =>
    rw [hfm] at h
    have hb : { total := runs.length
                current := ((runs.map processItem).filter incrementsCurrent).length
                results := (runs.map processItem).filterMap pushedRecord
                cancelled := c : BatchProgress } = b := by
      injection h
    subst hb
    have hnone : ∀ o ∈ runs.map processItem, itemException o = none := by
      rw [← List.filterMap_eq_nil_iff]
      exact hfm
    obtain ⟨h1, h2⟩ := itemOutcome_counts (runs.map processItem) hnone
    rw [List.length_map] at h1 h2
    exact ⟨rfl, by simpa [skippedCount] using h1, by simpa [beforeAcquireSkips] using h2⟩

/-- C4 witness: the amended theorem applied to a one-item batch that
completes the whole pipeline. -/
theorem batch_bookkeeping_amended_witness :
    ({ total := 1, current := 1
       results := [{ itemID := 1, title := ("t"), suggestedTags := [("a")]
                     appliedTags := [("a")], reasoning := ("r"), error := none }]
       cancelled := false : BatchProgress }).current +
      beforeAcquireSkips [runFull] = 1 :=
  (batch_bookkeeping_amended [runFull] false
    { total := 1, current := 1
      results := [{ itemID := 1, title := ("t"), suggestedTags := [("a")]
                    appliedTags := [("a")], reasoning := ("r"), error := none }]
      cancelled := false } (by decide)).2.2

/-- C6 counterexample: the snapshot handed to `onProgress` is the shallow
copy `{ ...progress }`, whose `results` field is the *same* array
reference as the scheduler's — pushing a record through the received
snapshot changes the array the scheduler's internal `progress.results`
refers to (from `[]` to one record), so mutating the snapshot's results
list does change the scheduler's internal state, and symmetrically the
scheduler's own later pushes are visible through snapshots already handed
out.  This contradicts the claim that every emission is a defensive copy
isolated in both directions. -/
theorem snapshot_shallow_copy_counterexample :
    (spreadCopy progEx).resultsRef = progEx.resultsRef ∧
    arrHeapEx progEx.resultsRef = [] ∧
    pushThroughObj arrHeapEx (spreadCopy progEx) okRecord progEx.resultsRef =
      [okRecord] ∧
    pushThroughObj arrHeapEx (spreadCopy progEx) okRecord progEx.resultsRef ≠
      arrHeapEx progEx.resultsRef := by
  refine ⟨?_, ?_, ?_, ?_⟩ <;> decide

/-- C6 (amended): `onProgress({ ...progress })` is a field-by-field
shallow copy: the scalar fields `total`, `current` and `cancelled` are
copied by value, but `results` is copied as a shared array reference, so
a push performed through the snapshot lands in the scheduler's array and
a push performed by the scheduler lands in the array seen through every
previously emitted snapshot. -/
theorem snapshot_shallow_copy_semantics (p : ProgressObj) (h : ArrHeap)
    (r : TagResult) :
    (spreadCopy p).total = p.total ∧
    (spreadCopy p).current = p.current ∧
    (spreadCopy p).cancelled = p.cancelled ∧
    (spreadCopy p).resultsRef = p.resultsRef ∧
    pushThroughObj h (spreadCopy p) r p.resultsRef = h p.resultsRef ++ [r] ∧
    pushThroughObj h p r (spreadCopy p).resultsRef =
      h ((spreadCopy p).resultsRef) ++ [r] := by
  refine ⟨rfl, rfl, rfl, rfl, ?_, ?_⟩ <;> simp [pushThroughObj, spreadCopy]

set_option maxRecDepth 8192 in
/-- C10: when the structured-output attempt inside
`chatCompletionWithFallback` fails with an error message containing
`response_format`, `json_schema` or `not supported`, and the final
message of the request has role `user`, the fallback appends the
JSON-formatting instruction to that message object in place: after the
call, the caller's envelope observably differs — its last user message's
content has the instruction appended and the message object no longer
equals its pre-call value. -/
theorem fallback_mutates_request_in_place (heap : MsgHeap) (msgRefs : List Nat)
    (lastRef : Nat) (e : String) (second : Except String String)
    (hlast : msgRefs.getLast? = some lastRef)
    (hrole : (heap lastRef).role = ("user"))
    (hfb : shouldFallback e = true) :
    ((chatCompletionWithFallback heap msgRefs (.error e) second).1 lastRef).content =
      (heap lastRef).content ++ jsonInstruction ∧
    ((chatCompletionWithFallback heap msgRefs (.error e) second).1 lastRef).role =
      (heap lastRef).role ∧
    (chatCompletionWithFallback heap msgRefs (.error e) second).1 lastRef ≠
      heap lastRef := by
  have hmut : (chatCompletionWithFallback heap msgRefs (.error e) second).1 =
      applyFallbackMutation heap msgRefs := by
    simp [chatCompletionWithFallback, hfb]
  have happ : applyFallbackMutation heap msgRefs lastRef =
      { heap lastRef with content := (heap lastRef).content ++ jsonInstruction } := by
    unfold applyFallbackMutation
    rw [hlast]
    simp [hrole]
  rw [hmut, happ]
  refine ⟨rfl, rfl, ?_⟩
  intro heq
  have hc : (heap lastRef).content ++ jsonInstruction = (heap lastRef).content :=
    congrArg MsgObj.content heq
  have hlen := congrArg String.length hc
  rw [String.length_append] at hlen
  have hj : jsonInstruction.length ≠ 0 := by decide
  omega

/-- C10 witness: the theorem applied to a one-message envelope whose user
message reads `hello`, with a first-attempt error mentioning
`response_format`. -/
theorem fallback_mutates_request_in_place_witness :
    ((chatCompletionWithFallback msgHeapEx [0]
        (.error ("response_format is not supported")) (.ok ("x"))).1 0).content =
      (msgHeapEx 0).content ++ jsonInstruction ∧
    (chatCompletionWithFallback msgHeapEx [0]
        (.error ("response_format is not supported")) (.ok ("x"))).1 0 ≠
      msgHeapEx 0 := by
  have h := fallback_mutates_request_in_place msgHeapEx [0] 0
    ("response_format is not supported") (.ok ("x")) rfl rfl (by decide)
  exact ⟨h.1, h.2.2⟩



/-- C8 witness: the theorem applied to a concrete store holding tag
`physics` on every item, with an empty and a non-empty tag list. -/
theorem applyTags_empty_noop_and_idempotent_witness :
    applyTags storeEx 1 [] = storeEx ∧
    applyTags (applyTags storeEx 1 [("biology")]) 1 [("biology")] =
      applyTags storeEx 1 [("biology")] ∧
    (applyTags storeEx 1 [("biology")]).saved 1 =
      (applyTags storeEx 1 [("biology")]).mem 1 :=
  ⟨(applyTags_empty_noop_and_idempotent storeEx 1 []).1,
    (applyTags_empty_noop_and_idempotent storeEx 1 [("biology")]).2.2.2,
    (applyTags_empty_noop_and_idempotent storeEx 1 [("biology")]).2.2.1
      (by simp)⟩

end AITagger
